import Mathlib

/-!
Verification development for a small fitness-tracking web application.

The application logs workouts and gym visits in a relational store, exposes
query helpers (recent workouts, current-week gym visits), mutation helpers
(insert, delete-by-id, toggle a gym visit for a date), a chat endpoint that
validates its input and relays a model stream chunk-by-chunk, and a
client-side extractor that scrapes exercise suggestions out of assistant
text.  Each definition below is a direct translation of the corresponding
source function; theorems establish the documented behaviour.

Times are modelled as milliseconds since the Unix epoch (integers) and
calendar dates as day numbers since the epoch; weights are modelled at
integer granularity (the inputs exercised by the claims are integral).
-/

namespace Fitness

/-! ### Character-level helpers used by the suggestion extractor

The extractor runs three case-insensitive regular expressions over the text
between bold markers.  We model the relevant character classes of the
JavaScript regex engine: `\s` (whitespace) and `\d` (ASCII digits). -/

/-- The whitespace class matched by `\s` and removed by `String.trim`
(space, tab, line feed, carriage return, vertical tab, form feed,
no-break space). -/
def jsWhitespace (c : Char) : Bool :=
  c = ' ' || c = '\t' || c = '\n' || c = '\r' ||
  c = Char.ofNat 11 || c = Char.ofNat 12 || c = Char.ofNat 160

/-- `\d` matches exactly the ASCII digits. -/
def jsDigit (c : Char) : Bool :=
  '0' ≤ c && c ≤ '9'

/-- Numeric value of a run of ASCII digits, as computed by `parseInt` on the
captured digit string. -/
def digitsToNat (ds : List Char) : Nat :=
  ds.foldl (fun acc c => acc * 10 + (c.toNat - Char.toNat '0')) 0

/-- `String.prototype.trim`: strip whitespace from both ends. -/
def trimChars (cs : List Char) : List Char :=
  ((cs.dropWhile jsWhitespace).reverse.dropWhile jsWhitespace).reverse

/-! ### Splitting on bold spans

`content.split(/\*\*([^*]+)\*\*/)` splits the text at every occurrence of a
double-asterisk-delimited span, keeping the captured span contents between
the plain segments. -/

/-- Try to match `\*\*([^*]+)\*\*` at the start of `cs`; on success return
the captured name and the remaining text. -/
def matchBoldAt (cs : List Char) : Option (List Char × List Char) :=
  match cs with
  | c1 :: c2 :: rest =>
    if c1 = '*' ∧ c2 = '*' then
      let name := rest.takeWhile (fun c => decide (c ≠ '*'))
      let rest2 := rest.dropWhile (fun c => decide (c ≠ '*'))
      match name, rest2 with
      | [], _ => none
      | _ :: _, d1 :: d2 :: rest3 =>
        if d1 = '*' ∧ d2 = '*' then some (name, rest3) else none
      | _ :: _, _ => none
    else none
  | _ => none

/-- One pass of the split: a match emits the plain segment accumulated so
far and the captured name and continues after the span; a character not
starting a match joins the current plain segment.  This realises the
leftmost-match search of `String.prototype.split`. -/
def splitBoldGo (cs : List Char) (acc : List Char) : List (List Char) :=
  match h : matchBoldAt cs with
  | some (name, rest) => acc.reverse :: name :: splitBoldGo rest []
  | none =>
    match cs with
    | [] => [acc.reverse]
    | c :: rest => splitBoldGo rest (c :: acc)
termination_by cs.length
decreasing_by
  · rcases cs with _ | ⟨c1, _ | ⟨c2, t⟩⟩
    · simp [matchBoldAt] at h
    · simp [matchBoldAt] at h
    · simp only [matchBoldAt] at h
      split at h
      · have hlen : (t.dropWhile (fun c => decide (c ≠ '*'))).length ≤ t.length :=
          (List.dropWhile_sublist _).length_le
        split at h
        · exact absurd h (by simp)
        · rename_i d1 d2 rest3 heq
          split at h
          · injection h with h2
            injection h2 with h3 h4
            subst h4
            rw [heq] at hlen
            simp only [List.length_cons] at hlen ⊢
            omega
          · exact absurd h (by simp)
        · exact absurd h (by simp)
      · exact absurd h (by simp)
  · simp

/-- `content.split(/\*\*([^*]+)\*\*/)`: alternating plain segments and
captured bold names, beginning and ending with a (possibly empty) plain
segment. -/
def splitBold (cs : List Char) : List (List Char) :=
  splitBoldGo cs []

/-! ### The label regexes

`details.match(/Sets?:\s*(\d+)/i)`, `/Reps?:\s*(\d+)/i` and
`/Weight:\s*(\d+)/i` each search the details blob for the leftmost
occurrence of a case-insensitive label followed by a colon, optional
whitespace, and a run of digits, and capture the digits. -/

/-- Case-insensitively consume the letters of `stem` (given in lowercase)
from the front of `cs`, returning the remainder. -/
def matchStem (stem : List Char) (cs : List Char) : Option (List Char) :=
  match stem, cs with
  | [], rest => some rest
  | s :: ss, c :: cc => if c.toLower = s then matchStem ss cc else none
  | _ :: _, [] => none

/-- After the label stem: an optional `s` (when the regex has `s?`), a
colon, `\s*`, then the captured `\d+`.  The optional `s` is consumed
exactly when a colon follows it, mirroring the regex backtracking. -/
def matchColonNum (optS : Bool) (cs : List Char) : Option Nat :=
  let cs1 :=
    if optS then
      match cs with
      | c :: rest =>
        if c.toLower = 's' && (match rest with | ':' :: _ => true | _ => false)
        then rest else cs
      | [] => cs
    else cs
  match cs1 with
  | ':' :: rest =>
    let afterWs := rest.dropWhile jsWhitespace
    let digits := afterWs.takeWhile jsDigit
    match digits with
    | [] => none
    | _ :: _ => some (digitsToNat digits)
  | _ => none

/-- Leftmost-match search: try the label pattern at every start position in
turn and return the first captured number. -/
def findLabelNum (stem : List Char) (optS : Bool) : List Char → Option Nat
  | [] => none
  | c :: rest =>
    match matchStem stem (c :: rest) with
    | some after =>
      match matchColonNum optS after with
      | some n => some n
      | none => findLabelNum stem optS rest
    | none => findLabelNum stem optS rest

/-- A workout suggestion extracted from assistant text. -/
structure Suggestion where
  exercise : String
  sets : Nat
  reps : Nat
  weight : Nat
deriving DecidableEq

/-- One bold-name/details block of the loop body in
`parseExercisesFromMessage`: the trimmed name must be non-empty and all
three label regexes must match for a suggestion to be produced. -/
def parseBlock (name details : List Char) : Option Suggestion :=
  let exerciseName := trimChars name
  let setsMatch := findLabelNum "set".toList true details
  let repsMatch := findLabelNum "rep".toList true details
  let weightMatch := findLabelNum "weight".toList false details
  match exerciseName, setsMatch, repsMatch, weightMatch with
  | _ :: _, some s, some r, some w =>
    some { exercise := exerciseName.asString, sets := s, reps := r, weight := w }
  | _, _, _, _ => none

/-- The extraction loop over `sections[1], sections[3], …`: each captured
name is paired with the plain segment immediately following it (or the
empty string when the split ends on a name). -/
def parseBlocks : List (List Char) → List Suggestion
  | name :: details :: rest =>
    (match parseBlock name details with
     | some sug => [sug]
     | none => []) ++ parseBlocks rest
  | [name] =>
    match parseBlock name [] with
    | some sug => [sug]
    | none => []
  | [] => []

/-- The name/details pairs visited by the extraction loop, in order. -/
def blockPairs : List (List Char) → List (List Char × List Char)
  | name :: details :: rest => (name, details) :: blockPairs rest
  | [name] => [(name, [])]
  | [] => []

/-- `parseExercisesFromMessage`: split the assistant text on bold spans and
run the extraction loop over the captured names (the segment before the
first bold name, `sections[0]`, is skipped). -/
def parseExercisesFromMessage (content : String) : List Suggestion :=
  match splitBold content.toList with
  | [] => []
  | _ :: rest => parseBlocks rest

/-! ### Calendar arithmetic

`created_at` timestamps are milliseconds since the Unix epoch; calendar
dates are day numbers since the epoch (1970-01-01 is day 0, a Thursday). -/

def msPerDay : Int := 86400000

/-- Day number containing a timestamp. -/
def dayOfTimestamp (t : Int) : Int :=
  t.fdiv msPerDay

/-- `Date.prototype.getDay` for a day number: 0 = Sunday … 6 = Saturday. -/
def dayOfWeek (d : Int) : Int :=
  (d + 4) % 7

/-- Civil date (year, month, day-of-month) of an epoch day number,
following the standard days-to-civil conversion for the proleptic
Gregorian calendar. -/
def civilFromDays (z0 : Int) : Int × Int × Int :=
  let z := z0 + 719468
  let era := z.fdiv 146097
  let doe := z - era * 146097
  let yoe := (doe - doe / 1460 + doe / 36524 - doe / 146096) / 365
  let y := yoe + era * 400
  let doy := doe - (365 * yoe + yoe / 4 - yoe / 100)
  let mp := (5 * doy + 2) / 153
  let d := doy - (153 * mp + 2) / 5 + 1
  let m := if mp < 10 then mp + 3 else mp - 9
  (if m ≤ 2 then y + 1 else y, m, d)

/-- Short weekday names used by `toLocaleDateString('en-US')`. -/
def weekdayShort (w : Int) : String :=
  if w = 0 then "Sun" else if w = 1 then "Mon" else if w = 2 then "Tue"
  else if w = 3 then "Wed" else if w = 4 then "Thu" else if w = 5 then "Fri"
  else "Sat"

/-- Short month names used by `toLocaleDateString('en-US')`. -/
def monthShort (m : Int) : String :=
  if m = 1 then "Jan" else if m = 2 then "Feb" else if m = 3 then "Mar"
  else if m = 4 then "Apr" else if m = 5 then "May" else if m = 6 then "Jun"
  else if m = 7 then "Jul" else if m = 8 then "Aug" else if m = 9 then "Sep"
  else if m = 10 then "Oct" else if m = 11 then "Nov" else "Dec"

/-- `toLocaleDateString('en-US', { weekday, month, day })` applied to a
timestamp, e.g. `"Mon, Jan 5"`. -/
def localeDateString (t : Int) : String :=
  let d := dayOfTimestamp t
  let c := civilFromDays d
  weekdayShort (dayOfWeek d) ++ ", " ++ monthShort c.2.1 ++ " " ++ toString c.2.2

/-! ### Data model -/

/-- A logged workout row of the `workouts` table. -/
structure Workout where
  id : Nat
  exercise : String
  sets : Nat
  reps : Nat
  weight : Nat
  notes : Option String
  created_at : Int
deriving DecidableEq

/-- A row of the `gym_visits` table; its existence for a date means the
gym was attended on that date. -/
structure GymVisit where
  id : Nat
  visited_date : Int
deriving DecidableEq

/-- The two tables of the external store. -/
structure Store where
  workouts : List Workout
  gym_visits : List GymVisit
deriving DecidableEq

/-! ### Query layer -/

/-- `getRecentWorkouts(days)`: rows of the `workouts` table whose
`created_at` is on or after `now` minus `days` days, ordered by
`created_at` descending.  The default window is 14 days. -/
def getRecentWorkouts (now : Int) (days : Nat) (table : List Workout) :
    List Workout :=
  let since := now - (days : Int) * msPerDay
  (table.filter (fun w => decide (since ≤ w.created_at))).mergeSort
    (fun a b => decide (b.created_at ≤ a.created_at))

/-- `getRecentWorkouts()` with the default `days = 14` argument. -/
def getRecentWorkoutsDefault (now : Int) (table : List Workout) :
    List Workout :=
  getRecentWorkouts now 14 table

/-- `dayOfWeek === 0 ? 6 : dayOfWeek - 1`: days elapsed since the Monday
of the week containing day `d`. -/
def daysFromMonday (d : Int) : Int :=
  if dayOfWeek d = 0 then 6 else dayOfWeek d - 1

/-- Day number of the Monday of the week containing `now`
(`monday.setDate(today.getDate() - daysFromMonday)` at midnight). -/
def weekMonday (now : Int) : Int :=
  dayOfTimestamp now - daysFromMonday (dayOfTimestamp now)

/-- Day number of the Sunday of the week containing `now`
(`monday + 6 days`, end of day). -/
def weekSunday (now : Int) : Int :=
  weekMonday now + 6

/-- `getWeeklyGymVisits()`: rows of the `gym_visits` table whose
`visited_date` lies between the Monday and the Sunday of the week
containing `now`, inclusive. -/
def getWeeklyGymVisits (now : Int) (table : List GymVisit) : List GymVisit :=
  table.filter
    (fun v => decide (weekMonday now ≤ v.visited_date) &&
              decide (v.visited_date ≤ weekSunday now))

/-! ### Mutation layer -/

/-- `deleteWorkout(id)`: delete from the `workouts` table where
`id = id`; the `gym_visits` table is untouched. -/
def deleteWorkout (s : Store) (id : Nat) : Store :=
  { s with workouts := s.workouts.filter (fun w => decide (w.id ≠ id)) }

/-- `.select('id').eq('visited_date', date).single()`: `single()` yields a
row exactly when precisely one row matches; with zero or several matching
rows it reports an error and the destructured `data` is null. -/
def selectSingleVisit (table : List GymVisit) (date : Int) :
    Option GymVisit :=
  match table.filter (fun v => decide (v.visited_date = date)) with
  | [v] => some v
  | _ => none

/-- `toggleGymVisit(date)`: if a visit row is found for `date` delete it
(by its id), otherwise insert a fresh row for `date` (with the
store-assigned id `newId`). -/
def toggleGymVisit (table : List GymVisit) (date : Int) (newId : Nat) :
    List GymVisit :=
  match selectSingleVisit table date with
  | some existing => table.filter (fun v => decide (v.id ≠ existing.id))
  | none => table ++ [{ id := newId, visited_date := date }]

/-- Membership of a date in the visit set: some row carries the date. -/
def hasVisit (table : List GymVisit) (date : Int) : Bool :=
  table.any (fun v => decide (v.visited_date = date))

/-! ### Chat endpoint -/

/-- A JSON value as seen by the endpoint after `req.json()`; the payloads
of arrays and objects are irrelevant to validation. -/
inductive JsValue where
  | vstr (s : String)
  | vnum (n : Int)
  | vbool (b : Bool)
  | vnull
  | varr
  | vobj
deriving DecidableEq

/-- JavaScript truthiness of a value. -/
def isTruthy : JsValue → Bool
  | .vstr s => decide (s ≠ "")
  | .vnum n => decide (n ≠ 0)
  | .vbool b => b
  | .vnull => false
  | .varr => true
  | .vobj => true

/-- `typeof message === 'string'`. -/
def isStringValue : JsValue → Bool
  | .vstr _ => true
  | _ => false

/-- `!message || typeof message !== 'string'`: the request-validation test
of the POST handler (`none` models an absent field, i.e. `undefined`). -/
def chatValidationFails (message : Option JsValue) : Bool :=
  match message with
  | none => true
  | some v => !isTruthy v || !isStringValue v

/-- Relay of one model chunk: the endpoint reads
`chunk.choices[0]?.delta?.content || ''` and enqueues the encoded text
exactly when it is non-empty. -/
def relayChunk (c : Option String) : Option String :=
  let text := c.getD ""
  if text = "" then none else some text

/-- The byte stream written by the endpoint, as the ordered list of
enqueued text pieces. -/
def relayStream (chunks : List (Option String)) : List String :=
  chunks.filterMap relayChunk

/-- The outcome of the POST handler: a 400 response, or a 200 response
whose body is the relayed stream. -/
inductive ChatResponse where
  | badRequest
  | streamed (body : List String)
deriving DecidableEq

/-- The POST handler: validate the message, then (only on success) invoke
the model and relay its chunks. -/
def chatPOST (message : Option JsValue) (modelChunks : List (Option String)) :
    ChatResponse :=
  if chatValidationFails message then ChatResponse.badRequest
  else ChatResponse.streamed (relayStream modelChunks)

/-- A chat turn held in the UI state. -/
structure ChatMessage where
  id : Nat
  isUser : Bool
  content : String
deriving DecidableEq

/-- One state update of the client read loop: append the decoded text to
the turn whose id is the assistant placeholder's id. -/
def appendToMessage (msgs : List ChatMessage) (assistantId : Nat)
    (text : String) : List ChatMessage :=
  msgs.map (fun m =>
    if m.id = assistantId then { m with content := m.content ++ text } else m)

/-- The whole read loop: fold the arriving pieces, in delivery order, into
the turn list. -/
def streamIntoMessages (msgs : List ChatMessage) (assistantId : Nat)
    (pieces : List String) : List ChatMessage :=
  pieces.foldl (fun acc text => appendToMessage acc assistantId text) msgs

/-! ### Workout-context formatting -/

/-- The fixed sentence substituted when the window holds no workouts. -/
def noRecentWorkoutsSentence : String :=
  "The user hasn" ++ (Char.ofNat 39).toString ++
  "t logged any workouts in the past 2 weeks."

/-- ``workout.notes ? ` (${workout.notes})` : ''``: the notes suffix is
appended exactly when `notes` is truthy (non-null and non-empty). -/
def notesSection (notes : Option String) : String :=
  match notes with
  | some s => if s = "" then "" else " (" ++ s ++ ")"
  | none => ""

/-- One formatted line of the workout context. -/
def formatWorkoutLine (w : Workout) : String :=
  "- " ++ localeDateString w.created_at ++ ": " ++ w.exercise ++ " - " ++
  toString w.sets ++ "x" ++ toString w.reps ++ " @ " ++ toString w.weight ++
  "lbs" ++ notesSection w.notes

/-- `formatWorkoutsForContext`: the fixed sentence for an empty window,
otherwise a header line followed by one line per workout. -/
def formatWorkoutsForContext (workouts : List Workout) : String :=
  if workouts.length = 0 then noRecentWorkoutsSentence
  else
    "Recent workouts (last 2 weeks):\n" ++
    String.intercalate "\n" (workouts.map formatWorkoutLine)

/-! ### Helper lemmas -/

/-- A date is in the visit set exactly when filtering the table by that
date is non-empty. -/
theorem hasVisit_iff_filter_ne_nil (table : List GymVisit) (date : Int) :
    hasVisit table date = true ↔
      table.filter (fun v => decide (v.visited_date = date)) ≠ [] := by
  simp only [hasVisit, List.any_eq_true, decide_eq_true_eq, Ne,
    List.filter_eq_nil_iff, decide_eq_true_eq]
  push_neg
  constructor
  · rintro ⟨v, hv, hd⟩; exact ⟨v, hv, hd⟩
  · rintro ⟨v, hv, hd⟩; exact ⟨v, hv, hd⟩

/-- Filtering by date commutes with deleting by id. -/
theorem filter_date_of_delete_id (table : List GymVisit) (date : Int) (i : Nat) :
    (table.filter (fun v => decide (v.id ≠ i))).filter
        (fun v => decide (v.visited_date = date)) =
      (table.filter (fun v => decide (v.visited_date = date))).filter
        (fun v => decide (v.id ≠ i)) := by
  rw [List.filter_filter, List.filter_filter]
  congr 1
  funext v
  rw [Bool.and_comm]

/-- Folding string append distributes over a prepended accumulator. -/
theorem foldl_append_init (l : List String) :
    ∀ a b : String,
      List.foldl (fun r s => r ++ s) (a ++ b) l =
        a ++ List.foldl (fun r s => r ++ s) b l := by
  induction l with
  | nil => intro a b; rfl
  | cons x xs ih =>
    intro a b
    simp only [List.foldl_cons, String.append_assoc]
    exact ih a (b ++ x)

/-- `String.join` unfolds one element at a time. -/
theorem join_cons (x : String) (l : List String) :
    String.join (x :: l) = x ++ String.join l := by
  show List.foldl (fun r s => r ++ s) ("" ++ x) l = x ++ String.join l
  rw [String.empty_append]
  have := foldl_append_init l x ""
  rw [String.append_empty] at this
  exact this

/-- The client read loop appends the concatenation of the arriving pieces
to the placeholder turn and leaves every other turn untouched. -/
theorem streamIntoMessages_eq (aid : Nat) :
    ∀ (pieces : List String) (msgs : List ChatMessage),
      streamIntoMessages msgs aid pieces =
        msgs.map (fun m =>
          if m.id = aid then { m with content := m.content ++ String.join pieces }
          else m)
  | [], msgs => by
    have h : ∀ m ∈ msgs,
        (if m.id = aid then { m with content := m.content ++ String.join [] }
         else m) = m := by
      intro m _
      split <;> simp [String.join]
    simp only [streamIntoMessages, List.foldl_nil]
    rw [List.map_congr_left h]
    simp
  | p :: ps, msgs => by
    have ih := streamIntoMessages_eq aid ps (appendToMessage msgs aid p)
    simp only [streamIntoMessages, List.foldl_cons] at ih ⊢
    rw [ih]
    simp only [appendToMessage, List.map_map]
    apply List.map_congr_left
    intro m _
    by_cases h : m.id = aid
    · simp [h, join_cons, String.append_assoc]
    · simp [h]

/-- The relayed stream is the arriving text sequence with empty payloads
dropped, in arrival order. -/
theorem relayStream_eq_filter (chunks : List (Option String)) :
    relayStream chunks =
      (chunks.map (fun c => c.getD "")).filter (fun t => decide (t ≠ "")) := by
  induction chunks with
  | nil => rfl
  | cons c cs ih =>
    simp only [relayStream, List.filterMap_cons, List.map_cons,
      List.filter_cons] at ih ⊢
    by_cases h : c.getD "" = ""
    · simp [relayChunk, h, ih]
    · simp [relayChunk, h, ih]

/-- The relay changes no text: the concatenation of what is forwarded is
the concatenation of what the model delivered. -/
theorem join_relayStream (chunks : List (Option String)) :
    String.join (relayStream chunks) =
      String.join (chunks.map (fun c => c.getD "")) := by
  induction chunks with
  | nil => rfl
  | cons c cs ih =>
    simp only [relayStream, List.filterMap_cons, List.map_cons] at ih ⊢
    by_cases h : c.getD "" = ""
    · simp [relayChunk, h, join_cons, ih]
    · simp [relayChunk, h, join_cons, ih]

/-- The extraction loop is the ordered `filterMap` of the per-block parse
over the name/details pairs. -/
theorem parseBlocks_eq_filterMap :
    ∀ l : List (List Char), parseBlocks l =
      (blockPairs l).filterMap (fun p => parseBlock p.1 p.2)
  | [] => rfl
  | [name] => by
    simp only [parseBlocks, blockPairs, List.filterMap]
    cases parseBlock name [] <;> simp
  | name :: details :: rest => by
    have ih := parseBlocks_eq_filterMap rest
    simp only [parseBlocks, blockPairs, List.filterMap_cons, ih]
    cases parseBlock name details <;> simp

/-! ### Claim theorems -/

/-- Claim C2: the weekly gym-visit query returns exactly the entries whose
date falls in the Monday-through-Sunday window of the week containing
`now`; the window starts on a Monday (day-index 1), ends six days later on
a Sunday (day-index 0), contains the day of `now`, and depends only on the
calendar day of `now`, not on its time-of-day. -/
theorem weeklyGymVisits_window_spec (now : Int) (table : List GymVisit) :
    (∀ v : GymVisit, v ∈ getWeeklyGymVisits now table ↔
      v ∈ table ∧ weekMonday now ≤ v.visited_date ∧
        v.visited_date ≤ weekSunday now) ∧
    dayOfWeek (weekMonday now) = 1 ∧
    weekSunday now = weekMonday now + 6 ∧
    dayOfWeek (weekSunday now) = 0 ∧
    weekMonday now ≤ dayOfTimestamp now ∧
    dayOfTimestamp now ≤ weekSunday now ∧
    (∀ t2 : Int, dayOfTimestamp t2 = dayOfTimestamp now →
      weekMonday t2 = weekMonday now) := by
  refine ⟨?_, ?_, rfl, ?_, ?_, ?_, ?_⟩
  · intro v
    simp [getWeeklyGymVisits, List.mem_filter]
  · simp only [weekMonday, daysFromMonday, dayOfWeek]
    split <;> omega
  · simp only [weekSunday, weekMonday, daysFromMonday, dayOfWeek]
    split <;> omega
  · simp only [weekMonday, daysFromMonday, dayOfWeek]
    split <;> omega
  · simp only [weekSunday, weekMonday, daysFromMonday, dayOfWeek]
    split <;> omega
  · intro t2 h
    simp [weekMonday, h]

/-- Claim C2 witness: instantiated at a concrete reference time five hours
into day 0 (a Thursday) and at a concrete table. -/
theorem weeklyGymVisits_window_witness :
    weekMonday 0 = weekMonday 18000000 ∧
    GymVisit.mk 1 0 ∈ getWeeklyGymVisits 0 [GymVisit.mk 1 0] :=
  ⟨(weeklyGymVisits_window_spec 18000000 []).2.2.2.2.2.2 0 (by decide),
   ((weeklyGymVisits_window_spec 0 [GymVisit.mk 1 0]).1 (GymVisit.mk 1 0)).mpr
     ⟨by decide, by decide, by decide⟩⟩

/-- Claim C4, counterexample: the empty string is present and is a string,
yet the validation test rejects it with a 400 (it is falsy, and the code
tests `!message` before the type test), so "400 exactly when the message
is absent or non-string" is false as stated. -/
theorem chat_validation_counterexample :
    chatValidationFails (some (JsValue.vstr "")) = true ∧
    isStringValue (JsValue.vstr "") = true ∧
    chatPOST (some (JsValue.vstr "")) [some "hi"] = ChatResponse.badRequest := by
  decide

/-- Claim C4 (amended): the endpoint responds 400 exactly when the message
is absent, non-string, or the empty string; a 400 outcome is independent
of the model stream (no model call is observable), and any non-empty
string message passes validation. -/
theorem chat_validation_spec_amended (message : Option JsValue)
    (chunks chunks2 : List (Option String)) :
    (chatPOST message chunks = ChatResponse.badRequest ↔
      message = none ∨
      (∃ v, message = some v ∧ isStringValue v = false) ∨
      message = some (JsValue.vstr "")) ∧
    (chatPOST message chunks = ChatResponse.badRequest →
      chatPOST message chunks = chatPOST message chunks2) ∧
    (∀ s : String, s ≠ "" →
      chatPOST (some (JsValue.vstr s)) chunks =
        ChatResponse.streamed (relayStream chunks)) := by
  refine ⟨?_, ?_, ?_⟩
  · rcases message with _ | v
    · simp [chatPOST, chatValidationFails]
    · cases v <;>
        simp [chatPOST, chatValidationFails, isTruthy, isStringValue]
  · intro h
    have hv : chatValidationFails message = true := by
      by_contra hc
      simp [chatPOST, hc] at h
    simp [chatPOST, hv]
  · intro s hs
    simp [chatPOST, chatValidationFails, isTruthy, isStringValue, hs]

/-- Claim C4 witness: a non-empty string message is accepted and streamed. -/
theorem chat_validation_spec_amended_witness :
    chatPOST (some (JsValue.vstr "hi")) [some "ok"] =
      ChatResponse.streamed (relayStream [some "ok"]) :=
  (chat_validation_spec_amended (some (JsValue.vstr "hi")) [some "ok"] []).2.2
    "hi" (by decide)

/-- Claim C5: the recent-workouts query returns a permutation of exactly
the rows with `created_at ≥ now − N days`, membership is precisely that
subset, the result is ordered by `created_at` descending, and the default
window is 14 days. -/
theorem recentWorkouts_spec (now : Int) (days : Nat) (table : List Workout) :
    List.Perm (getRecentWorkouts now days table)
      (table.filter
        (fun w => decide (now - (days : Int) * msPerDay ≤ w.created_at))) ∧
    (∀ w : Workout, w ∈ getRecentWorkouts now days table ↔
      w ∈ table ∧ now - (days : Int) * msPerDay ≤ w.created_at) ∧
    List.Pairwise (fun a b => b.created_at ≤ a.created_at)
      (getRecentWorkouts now days table) ∧
    getRecentWorkoutsDefault now table = getRecentWorkouts now 14 table := by
  refine ⟨List.mergeSort_perm _ _, ?_, ?_, rfl⟩
  · intro w
    constructor
    · intro hw
      have := (List.mergeSort_perm (table.filter
        (fun w => decide (now - (days : Int) * msPerDay ≤ w.created_at)))
        (fun a b => decide (b.created_at ≤ a.created_at))).mem_iff.mp hw
      simpa [List.mem_filter] using this
    · intro hw
      apply (List.mergeSort_perm _ _).mem_iff.mpr
      simp only [List.mem_filter, decide_eq_true_eq]
      exact hw
  · have h := @List.sorted_mergeSort Workout
      (fun a b : Workout => decide (b.created_at ≤ a.created_at))
      (fun a b c h1 h2 => by
        simp only [decide_eq_true_eq] at h1 h2 ⊢
        exact le_trans h2 h1)
      (fun a b => by
        simp only [Bool.or_eq_true, decide_eq_true_eq]
        exact le_total b.created_at a.created_at)
      (table.filter
        (fun w => decide (now - (days : Int) * msPerDay ≤ w.created_at)))
    exact h.imp (by simp)

/-- Claim C10: deleting a workout by id removes exactly the rows carrying
that id: the gym-visit table is untouched, the surviving workout rows are
a sublist of the originals, every row with a different id survives, every
surviving row is an original with a different id, and when no row carries
the id the store is unchanged. -/
theorem deleteWorkout_frame_spec (s : Store) (id : Nat) :
    (deleteWorkout s id).gym_visits = s.gym_visits ∧
    List.Sublist (deleteWorkout s id).workouts s.workouts ∧
    (∀ w : Workout, w ∈ s.workouts → w.id ≠ id →
      w ∈ (deleteWorkout s id).workouts) ∧
    (∀ w : Workout, w ∈ (deleteWorkout s id).workouts →
      w ∈ s.workouts ∧ w.id ≠ id) ∧
    ((∀ w : Workout, w ∈ s.workouts → w.id ≠ id) → deleteWorkout s id = s) := by
  refine ⟨rfl, List.filter_sublist _, ?_, ?_, ?_⟩
  · intro w hw hne
    simp [deleteWorkout, List.mem_filter, hw, hne]
  · intro w hw
    simp only [deleteWorkout, List.mem_filter, decide_eq_true_eq] at hw
    exact hw
  · intro hall
    cases s with
    | mk ws gs =>
      have h : ws.filter (fun w => decide (w.id ≠ id)) = ws :=
        List.filter_eq_self.mpr (fun w hw => by simp [hall w hw])
      simp only [deleteWorkout]
      rw [h]

/-- Claim C10 witness: deleting id 2 from a store holding one workout with
id 1 keeps that workout and the visit table, leaving the store unchanged. -/
theorem deleteWorkout_frame_witness :
    Workout.mk 1 "Bench" 3 10 135 none 0 ∈
      (deleteWorkout
        (Store.mk [Workout.mk 1 "Bench" 3 10 135 none 0] [GymVisit.mk 7 3])
        2).workouts ∧
    deleteWorkout
        (Store.mk [Workout.mk 1 "Bench" 3 10 135 none 0] [GymVisit.mk 7 3]) 2 =
      Store.mk [Workout.mk 1 "Bench" 3 10 135 none 0] [GymVisit.mk 7 3] :=
  ⟨(deleteWorkout_frame_spec
      (Store.mk [Workout.mk 1 "Bench" 3 10 135 none 0] [GymVisit.mk 7 3])
      2).2.2.1 (Workout.mk 1 "Bench" 3 10 135 none 0) (by decide) (by decide),
   (deleteWorkout_frame_spec
      (Store.mk [Workout.mk 1 "Bench" 3 10 135 none 0] [GymVisit.mk 7 3])
      2).2.2.2.2 (by decide)⟩

/-- Claim C6: toggling a date twice in succession restores the visit set's
membership for that date, for every starting table; and on any table
holding at most one row for the date a single toggle inverts membership
(insert if absent, delete if present), so the pair is an involution rather
than an idempotent single call. -/
theorem toggle_pair_involution_spec (table : List GymVisit) (date : Int)
    (id1 id2 : Nat) :
    hasVisit (toggleGymVisit (toggleGymVisit table date id1) date id2) date =
      hasVisit table date ∧
    ((table.filter (fun v => decide (v.visited_date = date))).length ≤ 1 →
      hasVisit (toggleGymVisit table date id1) date = !hasVisit table date) := by
  constructor
  · rcases hL : table.filter (fun v => decide (v.visited_date = date)) with
      _ | ⟨v, _ | ⟨v2, rest⟩⟩
    · -- no row for the date: first toggle inserts, second deletes
      have hsel : selectSingleVisit table date = none := by
        simp [selectSingleVisit, hL]
      have hT1 : toggleGymVisit table date id1 =
          table ++ [GymVisit.mk id1 date] := by
        rw [toggleGymVisit, hsel]
      have hF1 : (toggleGymVisit table date id1).filter
          (fun w => decide (w.visited_date = date)) = [GymVisit.mk id1 date] := by
        rw [hT1, List.filter_append, hL]
        simp
      have hsel2 : selectSingleVisit (toggleGymVisit table date id1) date =
          some (GymVisit.mk id1 date) := by
        simp [selectSingleVisit, hF1]
      have hT2 : toggleGymVisit (toggleGymVisit table date id1) date id2 =
          (table ++ [GymVisit.mk id1 date]).filter
            (fun w => decide (w.id ≠ id1)) := by
        rw [toggleGymVisit, hsel2, hT1]
      rw [Bool.eq_iff_iff, hasVisit_iff_filter_ne_nil, hasVisit_iff_filter_ne_nil]
      rw [hT2, filter_date_of_delete_id, List.filter_append, hL]
      simp
    · -- exactly one row: first toggle deletes it, second inserts
      have hsel : selectSingleVisit table date = some v := by
        simp [selectSingleVisit, hL]
      have hT1 : toggleGymVisit table date id1 =
          table.filter (fun w => decide (w.id ≠ v.id)) := by
        rw [toggleGymVisit, hsel]
      have hF1 : (toggleGymVisit table date id1).filter
          (fun w => decide (w.visited_date = date)) = [] := by
        rw [hT1, filter_date_of_delete_id, hL]
        simp
      have hsel2 : selectSingleVisit (toggleGymVisit table date id1) date =
          none := by
        simp [selectSingleVisit, hF1]
      have hT2 : toggleGymVisit (toggleGymVisit table date id1) date id2 =
          toggleGymVisit table date id1 ++ [GymVisit.mk id2 date] := by
        rw [toggleGymVisit, hsel2]
      rw [Bool.eq_iff_iff, hasVisit_iff_filter_ne_nil, hasVisit_iff_filter_ne_nil]
      rw [hT2, List.filter_append, hF1, hL]
      simp
    · -- several rows: single() reports an error, so both toggles insert,
      -- and membership (already present) is preserved
      have hsel : selectSingleVisit table date = none := by
        simp [selectSingleVisit, hL]
      have hT1 : toggleGymVisit table date id1 =
          table ++ [GymVisit.mk id1 date] := by
        rw [toggleGymVisit, hsel]
      have hF1 : (toggleGymVisit table date id1).filter
          (fun w => decide (w.visited_date = date)) =
          v :: v2 :: (rest ++ [GymVisit.mk id1 date]) := by
        rw [hT1, List.filter_append, hL]
        simp
      have hsel2 : selectSingleVisit (toggleGymVisit table date id1) date =
          none := by
        simp [selectSingleVisit, hF1]
      have hT2 : toggleGymVisit (toggleGymVisit table date id1) date id2 =
          toggleGymVisit table date id1 ++ [GymVisit.mk id2 date] := by
        rw [toggleGymVisit, hsel2]
      rw [Bool.eq_iff_iff, hasVisit_iff_filter_ne_nil, hasVisit_iff_filter_ne_nil]
      rw [hT2, List.filter_append, hF1, hL]
      simp
  · intro hlen
    rcases hL : table.filter (fun v => decide (v.visited_date = date)) with
      _ | ⟨v, _ | ⟨v2, rest⟩⟩
    · have hsel : selectSingleVisit table date = none := by
        simp [selectSingleVisit, hL]
      have hT1 : toggleGymVisit table date id1 =
          table ++ [GymVisit.mk id1 date] := by
        rw [toggleGymVisit, hsel]
      have hno : hasVisit table date = false := by
        rw [← Bool.not_eq_true, hasVisit_iff_filter_ne_nil, hL]
        simp
      rw [hno, Bool.not_false, hasVisit_iff_filter_ne_nil, hT1,
        List.filter_append, hL]
      simp
    · have hsel : selectSingleVisit table date = some v := by
        simp [selectSingleVisit, hL]
      have hT1 : toggleGymVisit table date id1 =
          table.filter (fun w => decide (w.id ≠ v.id)) := by
        rw [toggleGymVisit, hsel]
      have hyes : hasVisit table date = true := by
        rw [hasVisit_iff_filter_ne_nil, hL]
        simp
      rw [hyes, Bool.not_true, ← Bool.not_eq_true, hasVisit_iff_filter_ne_nil,
        hT1, filter_date_of_delete_id, hL]
      simp
    · rw [hL] at hlen
      simp at hlen

/-- Claim C6 witness: toggling twice from an empty table is back to
"not attended", and one toggle inverts membership there. -/
theorem toggle_pair_involution_witness :
    hasVisit (toggleGymVisit (toggleGymVisit [] 0 1) 0 2) 0 = hasVisit [] 0 ∧
    hasVisit (toggleGymVisit ([] : List GymVisit) 0 1) 0 = !hasVisit [] 0 :=
  ⟨(toggle_pair_involution_spec [] 0 1 2).1,
   (toggle_pair_involution_spec [] 0 1 2).2 (by decide)⟩

/-- Claim C9: from a state with at most one visit row per date (and
store-unique row ids), a toggle preserves the invariant; toggling a date
with no row appends exactly one new row for it, and toggling a date with
exactly one row deletes exactly that row, keeping every other row. -/
theorem toggle_invariant_spec (table : List GymVisit) (date : Int)
    (newId : Nat)
    (hinv : ∀ d : Int,
      (table.filter (fun v => decide (v.visited_date = d))).length ≤ 1)
    (hids : (table.map GymVisit.id).Nodup) :
    (∀ d : Int, ((toggleGymVisit table date newId).filter
        (fun v => decide (v.visited_date = d))).length ≤ 1) ∧
    (table.filter (fun v => decide (v.visited_date = date)) = [] →
      toggleGymVisit table date newId = table ++ [GymVisit.mk newId date]) ∧
    (∀ v : GymVisit,
      table.filter (fun w => decide (w.visited_date = date)) = [v] →
      toggleGymVisit table date newId =
          table.filter (fun w => decide (w.id ≠ v.id)) ∧
        v ∉ toggleGymVisit table date newId ∧
        (∀ r : GymVisit, r ∈ table → r ≠ v →
          r ∈ toggleGymVisit table date newId)) := by
  refine ⟨?_, ?_, ?_⟩
  · intro d
    rcases hL : table.filter (fun v => decide (v.visited_date = date)) with
      _ | ⟨v, _ | ⟨v2, rest⟩⟩
    · have hsel : selectSingleVisit table date = none := by
        simp [selectSingleVisit, hL]
      have hT1 : toggleGymVisit table date newId =
          table ++ [GymVisit.mk newId date] := by
        rw [toggleGymVisit, hsel]
      rw [hT1, List.filter_append]
      by_cases hd : d = date
      · subst hd
        rw [hL]
        simp
      · have h0 : (List.filter (fun v => decide (v.visited_date = d))
            [GymVisit.mk newId date]) = [] := by
          simp
          exact fun hc => hd hc.symm
        rw [h0, List.append_nil]
        exact hinv d
    · have hsel : selectSingleVisit table date = some v := by
        simp [selectSingleVisit, hL]
      have hT1 : toggleGymVisit table date newId =
          table.filter (fun w => decide (w.id ≠ v.id)) := by
        rw [toggleGymVisit, hsel]
      rw [hT1, filter_date_of_delete_id]
      exact le_trans (List.length_filter_le _ _) (hinv d)
    · have hc := hinv date
      rw [hL] at hc
      simp at hc
  · intro hL
    have hsel : selectSingleVisit table date = none := by
      simp [selectSingleVisit, hL]
    rw [toggleGymVisit, hsel]
  · intro v hF
    have hsel : selectSingleVisit table date = some v := by
      simp [selectSingleVisit, hF]
    have hT1 : toggleGymVisit table date newId =
        table.filter (fun w => decide (w.id ≠ v.id)) := by
      rw [toggleGymVisit, hsel]
    have hvmem : v ∈ table := by
      have hm : v ∈ table.filter (fun w => decide (w.visited_date = date)) := by
        rw [hF]
        exact List.mem_cons_self v []
      exact List.mem_of_mem_filter hm
    refine ⟨hT1, ?_, ?_⟩
    · rw [hT1]
      simp [List.mem_filter]
    · intro r hr hrv
      rw [hT1, List.mem_filter]
      refine ⟨hr, ?_⟩
      simp only [ne_eq, decide_eq_true_eq]
      intro hid
      exact hrv (List.inj_on_of_nodup_map hids hr hvmem hid)

/-- Claim C9 witness: on a one-row table satisfying the invariant, toggling
that row's date removes the row; on the empty table, toggling inserts
exactly one row. -/
theorem toggle_invariant_witness :
    GymVisit.mk 1 5 ∉ toggleGymVisit [GymVisit.mk 1 5] 5 2 ∧
    toggleGymVisit ([] : List GymVisit) 5 2 = [] ++ [GymVisit.mk 2 5] :=
  ⟨((toggle_invariant_spec [GymVisit.mk 1 5] 5 2
      (fun d => List.length_filter_le _ _) (by decide)).2.2
      (GymVisit.mk 1 5) (by decide)).2.1,
   (toggle_invariant_spec ([] : List GymVisit) 5 2
      (fun d => by simp) (by decide)).2.1 (by decide)⟩

/-- Claim C3: the endpoint forwards each model chunk's text payload in
arrival order without buffering or reformatting — the forwarded sequence
is the arriving text sequence with empty payloads dropped, and its
concatenation equals the model's full text; the client appends the
forwarded pieces to the placeholder turn in order, so for the stream
`["Hel", "lo"]` the assistant turn's final content is `"Hello"`, and the
final turn list is a pure function of the delivered pieces (nothing
mutates it after completion). -/
theorem chat_stream_relay_spec :
    (∀ chunks : List (Option String), relayStream chunks =
      (chunks.map (fun c => c.getD "")).filter (fun t => decide (t ≠ ""))) ∧
    (∀ chunks : List (Option String), String.join (relayStream chunks) =
      String.join (chunks.map (fun c => c.getD ""))) ∧
    (∀ (msgs : List ChatMessage) (aid : Nat) (pieces : List String),
      streamIntoMessages msgs aid pieces =
        msgs.map (fun m => if m.id = aid then
          { m with content := m.content ++ String.join pieces } else m)) ∧
    streamIntoMessages [ChatMessage.mk 1 true "hi", ChatMessage.mk 2 false ""] 2
        (relayStream [some "Hel", some "lo"]) =
      [ChatMessage.mk 1 true "hi", ChatMessage.mk 2 false "Hello"] :=
  ⟨relayStream_eq_filter,
   join_relayStream,
   fun msgs aid pieces => streamIntoMessages_eq aid pieces msgs,
   by decide⟩

unseal splitBoldGo in
/-- Claim C1: the extractor splits the text on bold spans and, for each
captured name paired with the plain segment immediately following it,
emits a suggestion exactly when the name and all three labelled integers
are found, in the order the bold names appeared (duplicates permitted) —
stated as the `filterMap` characterisation over the split, together with
the two contract examples: the Squat block parses to one suggestion, and
the same block without its Reps label parses to none. -/
theorem parseExercises_spec :
    parseExercisesFromMessage "**Squat**\nSets: 3\nReps: 10\nWeight: 135 lbs" =
      [Suggestion.mk "Squat" 3 10 135] ∧
    parseExercisesFromMessage "**Squat**\nSets: 3\nWeight: 135 lbs" = [] ∧
    (∀ content : String, parseExercisesFromMessage content =
      (blockPairs (splitBold content.toList).tail).filterMap
        (fun p => parseBlock p.1 p.2)) := by
  refine ⟨by decide, by decide, ?_⟩
  intro content
  rcases h : splitBold content.data with _ | ⟨s0, rest⟩ <;>
    simp [parseExercisesFromMessage, String.toList, h, parseBlocks_eq_filterMap,
      blockPairs]

unseal splitBoldGo in
/-- Claim C7: the weight capture takes only the leading integer digits
after the `Weight:` label — whatever text follows the digits (for a
fractional weight, the `.5` tail), the captured value is the integer part,
so a `Weight: 135.5` details blob yields weight 135, as in the full
extraction example. -/
theorem weight_truncation_spec :
    (∀ rest : List Char,
      findLabelNum "weight".toList false
          ('W' :: 'e' :: 'i' :: 'g' :: 'h' :: 't' :: ':' :: ' ' ::
            '1' :: '3' :: '5' :: '.' :: rest) = some 135) ∧
    parseExercisesFromMessage
        "**Squat**\nSets: 3\nReps: 10\nWeight: 135.5 lbs" =
      [Suggestion.mk "Squat" 3 10 135] := by
  refine ⟨fun rest => ?_, by decide⟩
  rfl

/-- Claim C8, counterexample: a workout whose notes field is present but
holds the empty string is formatted without any notes suffix (the code
tests truthiness, not presence), so "followed by the notes exactly when
notes are present" is false as stated. -/
theorem notes_empty_counterexample :
    (Workout.mk 1 "Bench" 3 10 135 (some "") 0).notes ≠ none ∧
    formatWorkoutLine (Workout.mk 1 "Bench" 3 10 135 (some "") 0) =
      "- Thu, Jan 1: Bench - 3x10 @ 135lbs" := by
  decide

/-- Claim C8 (amended): each entry of the window is formatted as the line
`- <weekday date>: <exercise> - <sets>x<reps> @ <weight>lbs`, followed by
` (<notes>)` exactly when notes are present and non-empty; an empty window
produces the fixed no-recent-workouts sentence instead. -/
theorem formatWorkouts_spec_amended (ws : List Workout) (w : Workout) :
    formatWorkoutsForContext [] = noRecentWorkoutsSentence ∧
    (ws ≠ [] → formatWorkoutsForContext ws =
      "Recent workouts (last 2 weeks):\n" ++
        String.intercalate "\n" (ws.map formatWorkoutLine)) ∧
    ((∃ s, w.notes = some s ∧ s ≠ "") →
      formatWorkoutLine w =
        "- " ++ localeDateString w.created_at ++ ": " ++ w.exercise ++ " - " ++
        toString w.sets ++ "x" ++ toString w.reps ++ " @ " ++
        toString w.weight ++ "lbs" ++ (" (" ++ w.notes.getD "" ++ ")")) ∧
    ((w.notes = none ∨ w.notes = some "") →
      formatWorkoutLine w =
        "- " ++ localeDateString w.created_at ++ ": " ++ w.exercise ++ " - " ++
        toString w.sets ++ "x" ++ toString w.reps ++ " @ " ++
        toString w.weight ++ "lbs") ∧
    formatWorkoutsForContext
        [Workout.mk 1 "Bench Press" 3 10 135 (some "felt good") 1704412800000] =
      "Recent workouts (last 2 weeks):\n- Fri, Jan 5: Bench Press - 3x10 @ 135lbs (felt good)" := by
  refine ⟨rfl, ?_, ?_, ?_, by decide⟩
  · intro hne
    rw [formatWorkoutsForContext]
    rw [if_neg (by simpa using hne)]
  · rintro ⟨s, hs, hne⟩
    have hns : notesSection (some s) = " (" ++ s ++ ")" := by
      simp [notesSection, hne]
    rw [formatWorkoutLine, hs, hns, Option.getD_some]
  · rintro (hs | hs) <;> rw [formatWorkoutLine, hs] <;> simp [notesSection]

/-- Claim C8 witness: instantiated at a workout with non-empty notes and
at one with empty notes. -/
theorem formatWorkouts_spec_amended_witness :
    formatWorkoutLine (Workout.mk 2 "Squat" 5 5 225 (some "PR") 0) =
      "- " ++ localeDateString 0 ++ ": " ++ "Squat" ++ " - " ++
      toString 5 ++ "x" ++ toString 5 ++ " @ " ++ toString 225 ++ "lbs" ++
      (" (" ++ (some "PR" : Option String).getD "" ++ ")") ∧
    formatWorkoutLine (Workout.mk 3 "Row" 3 8 95 none 0) =
      "- " ++ localeDateString 0 ++ ": " ++ "Row" ++ " - " ++
      toString 3 ++ "x" ++ toString 8 ++ " @ " ++ toString 95 ++ "lbs" :=
  ⟨(formatWorkouts_spec_amended []
      (Workout.mk 2 "Squat" 5 5 225 (some "PR") 0)).2.2.1
      ⟨"PR", rfl, by decide⟩,
   (formatWorkouts_spec_amended []
      (Workout.mk 3 "Row" 3 8 95 none 0)).2.2.2.1 (Or.inl rfl)⟩

end Fitness
